import Mathlib

/-!
Verification of the libdeps dependency-resolution engine
(`site_scons/libdeps_tool.py`): the visibility-annotated dependency
graph, the two-tier depth-first closure computation `_get_libdeps` /
`_libdeps_visit` / `_libdeps_visit_private`, its cycle detection, the
memoization cache, the lint rules, and the emitter.

Build targets are modelled as natural numbers (the Python code keys
nodes by their path-like string name; any type with a decidable total
order works, and we use `Nat`).  Python's mutable `marked` dictionary,
`walking` set and `tsorted` list become explicit functional state; the
unbounded recursion of the Python visitor becomes structural recursion
on a fuel argument, with fuel `|V| + 1` proved sufficient for every
graph whose edge targets lie in the vertex list `V`.
-/

/-- The four dependency visibility kinds of `class deptype` (Global,
Public, Private, Interface), ordered by their numeric value. -/
inductive deptype
  | Global
  | Public
  | Private
  | Interface
deriving DecidableEq

/-- Numeric value of a visibility kind (`deptype.value[0]` in the source);
`sorted(visibility_map.keys())` iterates kinds in this order. -/
def deptype.value : deptype → Nat
  | .Global => 0
  | .Public => 1
  | .Private => 2
  | .Interface => 3

/-- `class dependency`: an edge to `target_node` carrying the declared
visibility and the originally listed (un-normalised) name. -/
structure dependency where
  target_node : Nat
  dependency_type : deptype
  listed_name : Nat
deriving DecidableEq

/-- The dependency graph: per node, the `libdeps_direct` attribute list
(the declared direct edges).  Nodes without an entry have no edges. -/
structure Graph where
  entries : List (Nat × List dependency)
deriving DecidableEq

/-- Direct edge list of a node (the `libdeps_direct` attribute; empty when
the attribute is absent). -/
def Graph.adj (g : Graph) (n : Nat) : List dependency :=
  match g.entries.find? (fun p => p.1 == n) with
  | some p => p.2
  | none => []

/-- Insert one dependency into a list sorted by target node. -/
def insertByTarget (d : dependency) : List dependency → List dependency
  | [] => [d]
  | e :: es =>
    if d.target_node ≤ e.target_node then d :: e :: es
    else e :: insertByTarget d es

/-- Sort dependencies by target node, as
`sorted(direct, key=lambda t: str(t.target_node))`. -/
def sortByTarget : List dependency → List dependency
  | [] => []
  | d :: ds => insertByTarget d (sortByTarget ds)

/-- `_get_sorted_direct_libdeps`: a node's direct dependencies sorted by
target name (the Python function caches the sorted list on the node;
the cache is semantically transparent). -/
def _get_sorted_direct_libdeps (g : Graph) (n : Nat) : List dependency :=
  sortByTarget (g.adj n)

/-- `class LibdepsVisitationMark(enum.IntEnum)`. -/
inductive LibdepsVisitationMark
  | UNMARKED
  | MARKED_PRIVATE
  | MARKED_PUBLIC
deriving DecidableEq

/-- The `IntEnum` value of a mark (UNMARKED = 0, MARKED_PRIVATE = 1,
MARKED_PUBLIC = 2); the source compares marks by this value. -/
def LibdepsVisitationMark.toNat : LibdepsVisitationMark → Nat
  | .UNMARKED => 0
  | .MARKED_PRIVATE => 1
  | .MARKED_PUBLIC => 2

/-- The `marked` defaultdict: every node starts `UNMARKED`. -/
def Marking : Type := Nat → LibdepsVisitationMark

/-- `marked[n] = v`: functional update of the marking dictionary. -/
def setMark (m : Marking) (n : Nat) (v : LibdepsVisitationMark) : Marking :=
  fun x => if x = n then v else m x

/-- `class DependencyCycleError`: carries the accumulated cycle path. -/
structure DependencyCycleError where
  cycle_nodes : List Nat
deriving DecidableEq

/-- Errors escaping the visitation: a detected dependency cycle, or fuel
exhaustion (an artifact of the embedding; proved unreachable for
`fuel ≥ |V| + 1`). -/
inductive VisitError
  | cycleErr (e : DependencyCycleError)
  | outOfFuel
deriving DecidableEq

/-- The `except DependencyCycleError` handler of both visit functions:
each propagating frame prepends its own node unless the cycle list
already starts and ends with the same node. -/
def augmentCycle (nt : Nat) (e : DependencyCycleError) : DependencyCycleError :=
  if e.cycle_nodes.length = 1 ∨ e.cycle_nodes.head? ≠ e.cycle_nodes.getLast? then
    ⟨nt :: e.cycle_nodes⟩
  else e

/-- Lift `augmentCycle` to `VisitError` (fuel exhaustion propagates
untouched). -/
def augmentErr (nt : Nat) : VisitError → VisitError
  | .cycleErr e => .cycleErr (augmentCycle nt e)
  | .outOfFuel => .outOfFuel

/-- The mutable state of `_libdeps_visit`: the topological output list
`tsorted` and the `marked` dictionary. -/
structure VisitState where
  tsorted : List Nat
  marked : Marking

/-- The inner loop of `_libdeps_visit_private`: visit every direct child
(of any visibility), threading the marking, stopping at the first
error. -/
def runAllChildren (visit : dependency → Marking → Except VisitError Marking) :
    List dependency → Marking → Except VisitError Marking
  | [], m => Except.ok m
  | c :: cs, m =>
    match visit c m with
    | Except.ok m2 => runAllChildren visit cs m2
    | Except.error e => Except.error e

/-- The first loop of `_libdeps_visit`: visit every non-Private child. -/
def runPublicPass (visit : dependency → VisitState → Except VisitError VisitState) :
    List dependency → VisitState → Except VisitError VisitState
  | [], s => Except.ok s
  | c :: cs, s =>
    if c.dependency_type ≠ deptype.Private then
      match visit c s with
      | Except.ok s2 => runPublicPass visit cs s2
      | Except.error e => Except.error e
    else runPublicPass visit cs s

/-- The second loop of `_libdeps_visit`: run the private-only visit on
every Private child. -/
def runPrivatePass (visitp : dependency → Marking → Except VisitError Marking) :
    List dependency → Marking → Except VisitError Marking
  | [], m => Except.ok m
  | c :: cs, m =>
    if c.dependency_type = deptype.Private then
      match visitp c m with
      | Except.ok m2 => runPrivatePass visitp cs m2
      | Except.error e => Except.error e
    else runPrivatePass visitp cs m

/-- `_libdeps_visit_private(n, marked, walking)`: cycle-detection-only
walk below a private edge.  Returns immediately when the node is
already marked at least `MARKED_PRIVATE`; raises a cycle error when the
node is on the walking stack; otherwise walks all direct children and
marks the node `MARKED_PRIVATE`.  Never touches `tsorted`. -/
def _libdeps_visit_private (g : Graph) :
    Nat → dependency → Marking → List Nat → Except VisitError Marking
  | 0, _, _, _ => Except.error VisitError.outOfFuel
  | fuel + 1, n, marked, walking =>
    if LibdepsVisitationMark.MARKED_PRIVATE.toNat ≤ (marked n.target_node).toNat then
      Except.ok marked
    else if n.target_node ∈ walking then
      Except.error (VisitError.cycleErr ⟨[n.target_node]⟩)
    else
      match runAllChildren
          (fun c m => _libdeps_visit_private g fuel c m (n.target_node :: walking))
          (_get_sorted_direct_libdeps g n.target_node) marked with
      | Except.ok m2 =>
          Except.ok (setMark m2 n.target_node LibdepsVisitationMark.MARKED_PRIVATE)
      | Except.error err => Except.error (augmentErr n.target_node err)

/-- `_libdeps_visit(n, tsorted, marked, walking)`: the full visit.
Returns immediately when the node is already `MARKED_PUBLIC`; raises a
cycle error when the node is on the walking stack; otherwise first
fully visits every non-Private child, then runs the private-only visit
on every Private child, then marks the node `MARKED_PUBLIC` and appends
it to `tsorted`. -/
def _libdeps_visit (g : Graph) :
    Nat → dependency → VisitState → List Nat → Except VisitError VisitState
  | 0, _, _, _ => Except.error VisitError.outOfFuel
  | fuel + 1, n, s, walking =>
    if s.marked n.target_node = LibdepsVisitationMark.MARKED_PUBLIC then
      Except.ok s
    else if n.target_node ∈ walking then
      Except.error (VisitError.cycleErr ⟨[n.target_node]⟩)
    else
      let children := _get_sorted_direct_libdeps g n.target_node
      match runPublicPass
          (fun c s2 => _libdeps_visit g fuel c s2 (n.target_node :: walking))
          children s with
      | Except.error err => Except.error (augmentErr n.target_node err)
      | Except.ok s1 =>
        match runPrivatePass
            (fun c m => _libdeps_visit_private g fuel c m (n.target_node :: walking))
            children s1.marked with
        | Except.error err => Except.error (augmentErr n.target_node err)
        | Except.ok m2 =>
          Except.ok ⟨s1.tsorted ++ [n.target_node],
                     setMark m2 n.target_node LibdepsVisitationMark.MARKED_PUBLIC⟩

/-- The top-level loop of `_get_libdeps`: fully visit every direct child
whose visibility is not Interface, starting from the given state with
an empty walking stack. -/
def runTopPass (visit : dependency → VisitState → Except VisitError VisitState) :
    List dependency → VisitState → Except VisitError VisitState
  | [], s => Except.ok s
  | c :: cs, s =>
    if c.dependency_type ≠ deptype.Interface then
      match visit c s with
      | Except.ok s2 => runTopPass visit cs s2
      | Except.error e => Except.error e
    else runTopPass visit cs s

/-- The cache-miss path of `_get_libdeps(node)`: fresh `tsorted`,
`marked` and `walking`, visit every non-Interface direct child, then
reverse the accumulated topological output. -/
def _get_libdeps_uncached (g : Graph) (fuel : Nat) (node : Nat) :
    Except VisitError (List Nat) :=
  match runTopPass (fun c s => _libdeps_visit g fuel c s [])
      (_get_sorted_direct_libdeps g node)
      ⟨[], fun _ => LibdepsVisitationMark.UNMARKED⟩ with
  | Except.ok s => Except.ok s.tsorted.reverse
  | Except.error e => Except.error e

/-- The per-node memo (`node.attributes.LIBDEPS_cached`). -/
def LibdepsCache : Type := Nat → Option (List Nat)

/-- `_get_libdeps(node)`: return the cached closure when present;
otherwise compute it, store it in the cache and return it.  On an error
nothing is cached. -/
def _get_libdeps (g : Graph) (fuel : Nat) (cache : LibdepsCache) (node : Nat) :
    Except VisitError (List Nat × LibdepsCache) :=
  match cache node with
  | some l => Except.ok (l, cache)
  | none =>
    match _get_libdeps_uncached g fuel node with
    | Except.ok tsorted =>
        Except.ok (tsorted, fun x => if x = node then some tsorted else cache x)
    | Except.error e => Except.error e

section ConcreteGraphs

/-- Private-truncation scenario of the spec (claim C2):
X = 0 −Public→ A = 1, A −Private→ B = 2, B −Public→ C = 3. -/
def gPriv : Graph :=
  ⟨[(0, [⟨1, deptype.Public, 1⟩]),
    (1, [⟨2, deptype.Private, 2⟩]),
    (2, [⟨3, deptype.Public, 3⟩])]⟩

/-- Cycle scenario of the spec (claim C4):
A = 0 −Public→ B = 1 −Public→ C = 2 −Public→ A. -/
def gCycle : Graph :=
  ⟨[(0, [⟨1, deptype.Public, 1⟩]),
    (1, [⟨2, deptype.Public, 2⟩]),
    (2, [⟨0, deptype.Public, 0⟩])]⟩

/-- Direct-Interface graph (claim C1): 0 −Interface→ 1. -/
def gIfaceDirect : Graph :=
  ⟨[(0, [⟨1, deptype.Interface, 1⟩])]⟩

/-- Transitive-Interface graph (claim C5):
X = 0 −Public→ A = 1 −Interface→ B = 2. -/
def gIfaceTrans : Graph :=
  ⟨[(0, [⟨1, deptype.Public, 1⟩]),
    (1, [⟨2, deptype.Interface, 2⟩])]⟩

/-- Ordering counterexample graph (claim C3):
N = 0 −Public→ A = 1, N −Public→ B = 2, A −Private→ B. -/
def gOrder : Graph :=
  ⟨[(0, [⟨1, deptype.Public, 1⟩, ⟨2, deptype.Public, 2⟩]),
    (1, [⟨2, deptype.Private, 2⟩])]⟩

example : _get_libdeps_uncached gPriv 9 0 = Except.ok [1] := rfl
example : _get_libdeps_uncached gPriv 9 1 = Except.ok [2, 3] := rfl
example : _get_libdeps_uncached gCycle 9 0 =
    Except.error (VisitError.cycleErr ⟨[1, 2, 0, 1]⟩) := rfl
example : _get_libdeps_uncached gIfaceDirect 9 0 = Except.ok [] := rfl
example : _get_libdeps_uncached gIfaceTrans 9 0 = Except.ok [1, 2] := rfl
example : _get_libdeps_uncached gOrder 9 0 = Except.ok [2, 1] := rfl
example : _get_libdeps_uncached gOrder 9 1 = Except.ok [2] := rfl

end ConcreteGraphs

section Reachability

/-- One edge step of any visibility. -/
def AnyStep (g : Graph) (a b : Nat) : Prop :=
  ∃ d, d ∈ g.adj a ∧ d.target_node = b

/-- One non-Private edge step (the edges `_libdeps_visit` recurses into). -/
def NPStep (g : Graph) (a b : Nat) : Prop :=
  ∃ d, d ∈ g.adj a ∧ d.target_node = b ∧ d.dependency_type ≠ deptype.Private

/-- The graph has no directed cycle (through edges of any visibility). -/
def Acyclic (g : Graph) : Prop :=
  ∀ a, ¬ Relation.TransGen (AnyStep g) a a

/-- Every edge target lies in the vertex list `V` (the finiteness bound
used to discharge the fuel of the embedded visitor). -/
def EdgeClosed (g : Graph) (V : List Nat) : Prop :=
  ∀ a, ∀ d ∈ g.adj a, d.target_node ∈ V

/-- Reachability as the code computes it: a first direct edge that is
not Interface, followed by non-Private edges. -/
def ClosureReach (g : Graph) (n b : Nat) : Prop :=
  ∃ d, d ∈ g.adj n ∧ d.dependency_type ≠ deptype.Interface ∧
    Relation.ReflTransGen (NPStep g) d.target_node b

/-- Reachability as claim C1 words it: a path from `n` whose edges other
than the very first are non-Private (no restriction on the first edge). -/
def SpecReach (g : Graph) (n b : Nat) : Prop :=
  ∃ d, d ∈ g.adj n ∧ Relation.ReflTransGen (NPStep g) d.target_node b

/-- `a` occurs in `l` and `b` occurs strictly after it. -/
def ListBefore (l : List Nat) (a b : Nat) : Prop :=
  ∃ l1 l2, l = l1 ++ a :: l2 ∧ b ∈ l2

theorem ListBefore.mem_left {l : List Nat} {a b : Nat} (h : ListBefore l a b) :
    a ∈ l := by
  obtain ⟨l1, l2, rfl, _⟩ := h
  simp

theorem ListBefore.mem_right {l : List Nat} {a b : Nat} (h : ListBefore l a b) :
    b ∈ l := by
  obtain ⟨l1, l2, rfl, hb⟩ := h
  simp [hb]

theorem ListBefore.append_right {l l' : List Nat} {a b : Nat}
    (h : ListBefore l a b) : ListBefore (l ++ l') a b := by
  obtain ⟨l1, l2, rfl, hb⟩ := h
  exact ⟨l1, l2 ++ l', by simp, by simp [hb]⟩

theorem listBefore_append_new {l : List Nat} {a c : Nat} (h : a ∈ l) :
    ListBefore (l ++ [c]) a c := by
  obtain ⟨u, v, rfl⟩ := List.append_of_mem h
  exact ⟨u, v ++ [c], by simp, by simp⟩

theorem ListBefore.reverse {l : List Nat} {a b : Nat} (h : ListBefore l a b) :
    ListBefore l.reverse b a := by
  obtain ⟨l1, l2, rfl, hb⟩ := h
  have hb2 : b ∈ l2.reverse := by simp [hb]
  obtain ⟨u, v, huv⟩ := List.append_of_mem hb2
  refine ⟨u, v ++ a :: l1.reverse, ?_, by simp⟩
  simp [List.reverse_append, huv]

end Reachability

section SortLemmas

theorem insertByTarget_perm (d : dependency) (l : List dependency) :
    (insertByTarget d l).Perm (d :: l) := by
  induction l with
  | nil => simp [insertByTarget]
  | cons e es ih =>
    by_cases h : d.target_node ≤ e.target_node
    · simp [insertByTarget, h]
    · simp only [insertByTarget, if_neg h]
      exact (List.Perm.cons e ih).trans (List.Perm.swap d e es)

theorem sortByTarget_perm (l : List dependency) : (sortByTarget l).Perm l := by
  induction l with
  | nil => simp [sortByTarget]
  | cons d ds ih =>
    exact (insertByTarget_perm d (sortByTarget ds)).trans (List.Perm.cons d ih)

theorem mem_sorted_direct {g : Graph} {n : Nat} {d : dependency} :
    d ∈ _get_sorted_direct_libdeps g n ↔ d ∈ g.adj n :=
  (sortByTarget_perm (g.adj n)).mem_iff

end SortLemmas

section MarkLemmas

/-- Pointwise ordering of markings: a marking only ever increases during
visitation. -/
def MarkLe (m m2 : Marking) : Prop :=
  ∀ x, (m x).toNat ≤ (m2 x).toNat

theorem markLe_refl (m : Marking) : MarkLe m m := fun _ => Nat.le_refl _

theorem markLe_trans {m1 m2 m3 : Marking} (h1 : MarkLe m1 m2)
    (h2 : MarkLe m2 m3) : MarkLe m1 m3 :=
  fun x => Nat.le_trans (h1 x) (h2 x)

theorem mark_eq_public_of_toNat {m : LibdepsVisitationMark} (h : 2 ≤ m.toNat) :
    m = LibdepsVisitationMark.MARKED_PUBLIC := by
  cases m <;> simp_all [LibdepsVisitationMark.toNat]

theorem MarkLe.public {m m2 : Marking} {x : Nat} (h : MarkLe m m2)
    (hx : m x = LibdepsVisitationMark.MARKED_PUBLIC) :
    m2 x = LibdepsVisitationMark.MARKED_PUBLIC := by
  apply mark_eq_public_of_toNat
  have := h x
  rw [hx] at this
  exact this

end MarkLemmas

section WitnessBridges

theorem adj_mem_entries {g : Graph} {n : Nat} {d : dependency}
    (h : d ∈ g.adj n) : ∃ p, p ∈ g.entries ∧ p.1 = n ∧ d ∈ p.2 := by
  unfold Graph.adj at h
  rcases hf : g.entries.find? (fun p => p.1 == n) with _ | p
  · rw [hf] at h; simp at h
  · rw [hf] at h
    have hmem := List.mem_of_find?_eq_some hf
    have hp := List.find?_some hf
    simp at hp
    exact ⟨p, hmem, hp, h⟩

theorem edgeClosed_of_entries {g : Graph} {V : List Nat}
    (h : ∀ p ∈ g.entries, ∀ d ∈ p.2, d.target_node ∈ V) : EdgeClosed g V := by
  intro a d hd
  obtain ⟨p, hp, _, hdp⟩ := adj_mem_entries hd
  exact h p hp d hdp

theorem acyclic_of_rank (g : Graph) (f : Nat → Nat)
    (h : ∀ p ∈ g.entries, ∀ d ∈ p.2, f d.target_node < f p.1) : Acyclic g := by
  have hstep : ∀ a b, AnyStep g a b → f b < f a := by
    rintro a b ⟨d, hd, rfl⟩
    obtain ⟨p, hp, rfl, hdp⟩ := adj_mem_entries hd
    exact h p hp d hdp
  intro a hcyc
  have : ∀ x y, Relation.TransGen (AnyStep g) x y → f y < f x := by
    intro x y hxy
    induction hxy with
    | single hs => exact hstep _ _ hs
    | tail _ hs ih => exact Nat.lt_trans (hstep _ _ hs) ih
  exact Nat.lt_irrefl _ (this a a hcyc)

end WitnessBridges

section PrivateVisitSpec

theorem setMark_self (m : Marking) (n : Nat) (v : LibdepsVisitationMark) :
    setMark m n v n = v := by simp [setMark]

theorem setMark_other (m : Marking) (n : Nat) (v : LibdepsVisitationMark)
    {x : Nat} (h : x ≠ n) : setMark m n v x = m x := by simp [setMark, h]

theorem mark_ne_public_of_toNat_lt {m : LibdepsVisitationMark}
    (h : m.toNat < 2) : m ≠ LibdepsVisitationMark.MARKED_PUBLIC := by
  cases m <;> simp_all [LibdepsVisitationMark.toNat]

/-- Conclusion package of a private-only visit: the marking only grows,
and the set of `MARKED_PUBLIC` nodes is unchanged. -/
def PrivateConc (m m2 : Marking) : Prop :=
  MarkLe m m2 ∧
  ∀ x, m2 x = LibdepsVisitationMark.MARKED_PUBLIC ↔
    m x = LibdepsVisitationMark.MARKED_PUBLIC

theorem privateConc_refl (m : Marking) : PrivateConc m m :=
  ⟨markLe_refl m, fun _ => Iff.rfl⟩

theorem privateConc_trans {m1 m2 m3 : Marking} (h1 : PrivateConc m1 m2)
    (h2 : PrivateConc m2 m3) : PrivateConc m1 m3 :=
  ⟨markLe_trans h1.1 h2.1, fun x => (h2.2 x).trans (h1.2 x)⟩

theorem runAllChildren_spec
    (visit : dependency → Marking → Except VisitError Marking)
    (cs : List dependency)
    (h : ∀ c ∈ cs, ∀ m, ∃ m2, visit c m = Except.ok m2 ∧ PrivateConc m m2) :
    ∀ m, ∃ m2, runAllChildren visit cs m = Except.ok m2 ∧ PrivateConc m m2 := by
  induction cs with
  | nil => intro m; exact ⟨m, rfl, privateConc_refl m⟩
  | cons c cs ih =>
    intro m
    obtain ⟨m1, hv, hc1⟩ := h c (by simp) m
    obtain ⟨m2, hr, hc2⟩ := ih (fun c2 hc => h c2 (by simp [hc])) m1
    exact ⟨m2, by simp [runAllChildren, hv, hr], privateConc_trans hc1 hc2⟩

theorem runPrivatePass_spec
    (visitp : dependency → Marking → Except VisitError Marking)
    (cs : List dependency)
    (h : ∀ c ∈ cs, c.dependency_type = deptype.Private →
      ∀ m, ∃ m2, visitp c m = Except.ok m2 ∧ PrivateConc m m2) :
    ∀ m, ∃ m2, runPrivatePass visitp cs m = Except.ok m2 ∧ PrivateConc m m2 := by
  induction cs with
  | nil => intro m; exact ⟨m, rfl, privateConc_refl m⟩
  | cons c cs ih =>
    intro m
    by_cases hct : c.dependency_type = deptype.Private
    · obtain ⟨m1, hv, hc1⟩ := h c (by simp) hct m
      obtain ⟨m2, hr, hc2⟩ := ih (fun c2 hc => h c2 (by simp [hc])) m1
      exact ⟨m2, by simp [runPrivatePass, hct, hv, hr], privateConc_trans hc1 hc2⟩
    · obtain ⟨m2, hr, hc2⟩ := ih (fun c2 hc => h c2 (by simp [hc])) m
      exact ⟨m2, by simp [runPrivatePass, hct, hr], hc2⟩

/-- On an acyclic graph with enough fuel, the private-only visit always
succeeds, only raises marks, and creates no `MARKED_PUBLIC` mark. -/
theorem visit_private_ok (g : Graph) (V : List Nat)
    (closed : EdgeClosed g V) (acyc : Acyclic g) :
    ∀ fuel : Nat, ∀ n : dependency, ∀ walking : List Nat,
    walking.Nodup → (∀ w ∈ walking, w ∈ V) →
    (∀ w ∈ walking, Relation.TransGen (AnyStep g) w n.target_node) →
    n.target_node ∈ V →
    V.length + 1 ≤ fuel + walking.length →
    ∀ m, ∃ m2, _libdeps_visit_private g fuel n m walking = Except.ok m2 ∧
      PrivateConc m m2 := by
  intro fuel
  induction fuel with
  | zero =>
    intro n walking hnd hsub hchain hV hfuel m
    exfalso
    have hlen : walking.length ≤ V.length :=
      (List.Nodup.subperm hnd (fun a ha => hsub a ha)).length_le
    omega
  | succ fuel ih =>
    intro n walking hnd hsub hchain hV hfuel m
    by_cases h1 :
        LibdepsVisitationMark.MARKED_PRIVATE.toNat ≤ (m n.target_node).toNat
    · exact ⟨m, by simp [_libdeps_visit_private, h1], privateConc_refl m⟩
    · have hnw : n.target_node ∉ walking := fun hmem =>
        acyc n.target_node (hchain _ hmem)
      have hchild : ∀ c ∈ _get_sorted_direct_libdeps g n.target_node,
          ∀ m0, ∃ m2,
          _libdeps_visit_private g fuel c m0 (n.target_node :: walking) =
            Except.ok m2 ∧ PrivateConc m0 m2 := by
        intro c hc m0
        have hcadj : c ∈ g.adj n.target_node := mem_sorted_direct.mp hc
        have hedge : AnyStep g n.target_node c.target_node := ⟨c, hcadj, rfl⟩
        apply ih c (n.target_node :: walking)
        · exact List.nodup_cons.mpr ⟨hnw, hnd⟩
        · intro w hw
          rcases List.mem_cons.mp hw with rfl | hw2
          · exact hV
          · exact hsub w hw2
        · intro w hw
          rcases List.mem_cons.mp hw with rfl | hw2
          · exact Relation.TransGen.single hedge
          · exact Relation.TransGen.tail (hchain w hw2) hedge
        · exact closed n.target_node c hcadj
        · simp only [List.length_cons]; omega
      obtain ⟨m2, hloop, hconc⟩ :=
        runAllChildren_spec _ (_get_sorted_direct_libdeps g n.target_node)
          hchild m
      have h0 : (m n.target_node).toNat = 0 := by
        cases hm : m n.target_node <;> simp_all [LibdepsVisitationMark.toNat]
      refine ⟨setMark m2 n.target_node LibdepsVisitationMark.MARKED_PRIVATE,
        by simp [_libdeps_visit_private, h1, hnw, hloop], ?_, ?_⟩
      · intro x
        by_cases hx : x = n.target_node
        · rw [hx, setMark_self]
          cases hm : m n.target_node <;> simp_all [LibdepsVisitationMark.toNat]
        · rw [setMark_other _ _ _ hx]
          exact hconc.1 x
      · intro x
        by_cases hx : x = n.target_node
        · rw [hx, setMark_self]
          constructor
          · intro hcontra; exact absurd hcontra (by decide)
          · intro hpub
            exfalso
            rw [hpub] at h0
            simp [LibdepsVisitationMark.toNat] at h0
        · rw [setMark_other _ _ _ hx]
          exact hconc.2 x

end PrivateVisitSpec

section FullVisitSpec

theorem mark_toNat_le_two (m : LibdepsVisitationMark) : m.toNat ≤ 2 := by
  cases m <;> simp [LibdepsVisitationMark.toNat]

theorem NPStep.toAnyStep {g : Graph} {a b : Nat} (h : NPStep g a b) :
    AnyStep g a b := by
  obtain ⟨d, hd, ht, _⟩ := h
  exact ⟨d, hd, ht⟩

/-- Invariant of the visit state: `tsorted` holds exactly the
`MARKED_PUBLIC` nodes, without duplicates, and everything a listed node
non-privately reaches was appended before it. -/
structure StateInv (g : Graph) (s : VisitState) : Prop where
  mem_iff : ∀ x, s.marked x = LibdepsVisitationMark.MARKED_PUBLIC ↔ x ∈ s.tsorted
  nodup : s.tsorted.Nodup
  npClosed : ∀ x, x ∈ s.tsorted → ∀ y, Relation.TransGen (NPStep g) x y →
    ListBefore s.tsorted y x

/-- Conclusion package of a full visit of a dependency with target `t`. -/
structure FullConc (g : Graph) (t : Nat) (s s2 : VisitState) : Prop where
  markLe : MarkLe s.marked s2.marked
  app : ∃ new, s2.tsorted = s.tsorted ++ new
  pub : s2.marked t = LibdepsVisitationMark.MARKED_PUBLIC
  sound : ∀ x, x ∈ s2.tsorted →
    x ∈ s.tsorted ∨ Relation.ReflTransGen (NPStep g) t x

theorem runPublicPass_spec (g : Graph)
    (visit : dependency → VisitState → Except VisitError VisitState)
    (cs : List dependency)
    (h : ∀ c ∈ cs, c.dependency_type ≠ deptype.Private → ∀ s, StateInv g s →
      ∃ s2, visit c s = Except.ok s2 ∧ StateInv g s2 ∧
        FullConc g c.target_node s s2) :
    ∀ s, StateInv g s →
    ∃ s2, runPublicPass visit cs s = Except.ok s2 ∧ StateInv g s2 ∧
      MarkLe s.marked s2.marked ∧
      (∃ new, s2.tsorted = s.tsorted ++ new) ∧
      (∀ c ∈ cs, c.dependency_type ≠ deptype.Private →
        s2.marked c.target_node = LibdepsVisitationMark.MARKED_PUBLIC) ∧
      (∀ x, x ∈ s2.tsorted → x ∈ s.tsorted ∨
        ∃ c, c ∈ cs ∧ c.dependency_type ≠ deptype.Private ∧
          Relation.ReflTransGen (NPStep g) c.target_node x) := by
  induction cs with
  | nil =>
    intro s hs
    exact ⟨s, rfl, hs, markLe_refl _, ⟨[], by simp⟩, by simp,
      fun x hx => Or.inl hx⟩
  | cons c cs ih =>
    intro s hs
    by_cases hct : c.dependency_type ≠ deptype.Private
    · obtain ⟨s1, hv, hs1, hfc⟩ := h c (by simp) hct s hs
      obtain ⟨new1, happ1⟩ := hfc.app
      obtain ⟨s2, hr, hs2, hml2, ⟨new2, happ2⟩, hallpub, hsound2⟩ :=
        ih (fun c2 hc2 => h c2 (by simp [hc2])) s1 hs1
      refine ⟨s2, by simp [runPublicPass, hct, hv, hr], hs2,
        markLe_trans hfc.markLe hml2, ⟨new1 ++ new2, by simp [happ2, happ1]⟩, ?_, ?_⟩
      · intro c2 hc2 hct2
        rcases List.mem_cons.mp hc2 with rfl | hc2'
        · exact hml2.public hfc.pub
        · exact hallpub c2 hc2' hct2
      · intro x hx
        rcases hsound2 x hx with hx1 | ⟨c2, hc2, hct2, hreach⟩
        · rcases hfc.sound x hx1 with hx0 | hreach
          · exact Or.inl hx0
          · exact Or.inr ⟨c, by simp, hct, hreach⟩
        · exact Or.inr ⟨c2, by simp [hc2], hct2, hreach⟩
    · obtain ⟨s2, hr, hs2, hml2, happ, hallpub, hsound⟩ :=
        ih (fun c2 hc2 => h c2 (by simp [hc2])) s hs
      refine ⟨s2, by simp [runPublicPass, hct, hr], hs2, hml2, happ, ?_, ?_⟩
      · intro c2 hc2 hct2
        rcases List.mem_cons.mp hc2 with rfl | hc2'
        · exact absurd hct2 hct
        · exact hallpub c2 hc2' hct2
      · intro x hx
        rcases hsound x hx with h1 | ⟨c2, hc2, hct2, hreach⟩
        · exact Or.inl h1
        · exact Or.inr ⟨c2, by simp [hc2], hct2, hreach⟩

/-- On an acyclic graph with enough fuel, the full visit succeeds and
establishes the state invariant together with the visit conclusions. -/
theorem visit_full_ok (g : Graph) (V : List Nat)
    (closed : EdgeClosed g V) (acyc : Acyclic g) :
    ∀ fuel : Nat, ∀ n : dependency, ∀ walking : List Nat,
    walking.Nodup → (∀ w ∈ walking, w ∈ V) →
    (∀ w ∈ walking, Relation.TransGen (AnyStep g) w n.target_node) →
    n.target_node ∈ V →
    V.length + 1 ≤ fuel + walking.length →
    ∀ s, StateInv g s →
    ∃ s2, _libdeps_visit g fuel n s walking = Except.ok s2 ∧ StateInv g s2 ∧
      FullConc g n.target_node s s2 := by
  intro fuel
  induction fuel with
  | zero =>
    intro n walking hnd hsub hchain hV hfuel s hs
    exfalso
    have hlen : walking.length ≤ V.length :=
      (List.Nodup.subperm hnd (fun a ha => hsub a ha)).length_le
    omega
  | succ fuel ih =>
    intro n walking hnd hsub hchain hV hfuel s hs
    by_cases h1 : s.marked n.target_node = LibdepsVisitationMark.MARKED_PUBLIC
    · exact ⟨s, by simp [_libdeps_visit, h1], hs,
        ⟨markLe_refl _, ⟨[], by simp⟩, h1, fun x hx => Or.inl hx⟩⟩
    · have hnw : n.target_node ∉ walking := fun hmem =>
        acyc n.target_node (hchain _ hmem)
      have hsubc : ∀ c ∈ _get_sorted_direct_libdeps g n.target_node,
          c ∈ g.adj n.target_node := fun c hc => mem_sorted_direct.mp hc
      have hwalk2 : ∀ c ∈ _get_sorted_direct_libdeps g n.target_node,
          (n.target_node :: walking).Nodup ∧
          (∀ w ∈ n.target_node :: walking, w ∈ V) ∧
          (∀ w ∈ n.target_node :: walking,
            Relation.TransGen (AnyStep g) w c.target_node) ∧
          c.target_node ∈ V := by
        intro c hc
        have hedge : AnyStep g n.target_node c.target_node :=
          ⟨c, hsubc c hc, rfl⟩
        refine ⟨List.nodup_cons.mpr ⟨hnw, hnd⟩, ?_, ?_, closed _ c (hsubc c hc)⟩
        · intro w hw
          rcases List.mem_cons.mp hw with rfl | hw2
          · exact hV
          · exact hsub w hw2
        · intro w hw
          rcases List.mem_cons.mp hw with rfl | hw2
          · exact Relation.TransGen.single hedge
          · exact Relation.TransGen.tail (hchain w hw2) hedge
      have hpubchild : ∀ c ∈ _get_sorted_direct_libdeps g n.target_node,
          c.dependency_type ≠ deptype.Private → ∀ s0, StateInv g s0 →
          ∃ s2, _libdeps_visit g fuel c s0 (n.target_node :: walking) =
            Except.ok s2 ∧ StateInv g s2 ∧ FullConc g c.target_node s0 s2 := by
        intro c hc _ s0 hs0
        obtain ⟨ha, hb, hcc, hd⟩ := hwalk2 c hc
        exact ih c (n.target_node :: walking) ha hb hcc hd
          (by simp only [List.length_cons]; omega) s0 hs0
      have hprivchild : ∀ c ∈ _get_sorted_direct_libdeps g n.target_node,
          c.dependency_type = deptype.Private → ∀ m, ∃ m2,
          _libdeps_visit_private g fuel c m (n.target_node :: walking) =
            Except.ok m2 ∧ PrivateConc m m2 := by
        intro c hc _ m
        obtain ⟨ha, hb, hcc, hd⟩ := hwalk2 c hc
        exact visit_private_ok g V closed acyc fuel c (n.target_node :: walking)
          ha hb hcc hd (by simp only [List.length_cons]; omega) m
      obtain ⟨s1, hloop1, hs1, hml1, ⟨new1, happ1⟩, hallpub, hsound1⟩ :=
        runPublicPass_spec g
          (fun c s2 => _libdeps_visit g fuel c s2 (n.target_node :: walking))
          (_get_sorted_direct_libdeps g n.target_node) hpubchild s hs
      obtain ⟨m2, hloop2, hpc⟩ :=
        runPrivatePass_spec
          (fun c m => _libdeps_visit_private g fuel c m (n.target_node :: walking))
          (_get_sorted_direct_libdeps g n.target_node) hprivchild s1.marked
      have hnts : n.target_node ∉ s1.tsorted := by
        intro hmem
        rcases hsound1 _ hmem with hmem0 | ⟨c, hc, _, hreach⟩
        · exact h1 ((hs.mem_iff _).mpr hmem0)
        · exact acyc n.target_node
            (Relation.TransGen.head' ⟨c, hsubc c hc, rfl⟩
              (hreach.mono (fun a b hab => hab.toAnyStep)))
      refine ⟨⟨s1.tsorted ++ [n.target_node],
          setMark m2 n.target_node LibdepsVisitationMark.MARKED_PUBLIC⟩,
        by simp [_libdeps_visit, h1, hnw, hloop1, hloop2], ?_, ?_⟩
      · refine ⟨?_, ?_, ?_⟩
        · intro x
          dsimp only
          by_cases hx : x = n.target_node
          · rw [hx, setMark_self]
            simp
          · rw [setMark_other _ _ _ hx]
            rw [hpc.2 x, hs1.mem_iff x]
            simp [List.mem_append, hx]
        · dsimp only
          rw [List.nodup_append]
          exact ⟨hs1.nodup, List.nodup_singleton _,
            fun a ha hb => by
              rw [List.mem_singleton] at hb
              rw [hb] at ha
              exact hnts ha⟩
        · intro x hx y hty
          rcases List.mem_append.mp hx with hxs | hxnt
          · exact (hs1.npClosed x hxs y hty).append_right
          · rw [List.mem_singleton] at hxnt
            subst hxnt
            obtain ⟨z, hz1, hz2⟩ := Relation.TransGen.head'_iff.mp hty
            obtain ⟨d, hdadj, hdt, hdnp⟩ := hz1
            have hdmem : d ∈ _get_sorted_direct_libdeps g n.target_node :=
              mem_sorted_direct.mpr hdadj
            have hzpub : s1.marked z = LibdepsVisitationMark.MARKED_PUBLIC := by
              rw [← hdt]
              exact hallpub d hdmem hdnp
            have hzmem : z ∈ s1.tsorted := (hs1.mem_iff z).mp hzpub
            rcases Relation.reflTransGen_iff_eq_or_transGen.mp hz2 with
              rfl | htrans
            · exact listBefore_append_new hzmem
            · exact listBefore_append_new
                (hs1.npClosed z hzmem y htrans).mem_left
      · refine ⟨?_, ⟨new1 ++ [n.target_node], by simp [happ1]⟩,
          setMark_self _ _ _, ?_⟩
        · intro x
          dsimp only
          by_cases hx : x = n.target_node
          · rw [hx, setMark_self]
            exact Nat.le_trans (mark_toNat_le_two _)
              (by simp [LibdepsVisitationMark.toNat])
          · rw [setMark_other _ _ _ hx]
            exact Nat.le_trans (hml1 x) (hpc.1 x)
        · intro x hx
          rcases List.mem_append.mp hx with hxs | hxnt
          · rcases hsound1 x hxs with hx0 | ⟨c, hc, hct, hreach⟩
            · exact Or.inl hx0
            · exact Or.inr
                (Relation.ReflTransGen.head ⟨c, hsubc c hc, rfl, hct⟩ hreach)
          · rw [List.mem_singleton] at hxnt
            rw [hxnt]
            exact Or.inr Relation.ReflTransGen.refl

end FullVisitSpec

section TopLevelSpec

theorem runTopPass_spec (g : Graph)
    (visit : dependency → VisitState → Except VisitError VisitState)
    (cs : List dependency)
    (h : ∀ c ∈ cs, c.dependency_type ≠ deptype.Interface → ∀ s, StateInv g s →
      ∃ s2, visit c s = Except.ok s2 ∧ StateInv g s2 ∧
        FullConc g c.target_node s s2) :
    ∀ s, StateInv g s →
    ∃ s2, runTopPass visit cs s = Except.ok s2 ∧ StateInv g s2 ∧
      MarkLe s.marked s2.marked ∧
      (∃ new, s2.tsorted = s.tsorted ++ new) ∧
      (∀ c ∈ cs, c.dependency_type ≠ deptype.Interface →
        s2.marked c.target_node = LibdepsVisitationMark.MARKED_PUBLIC) ∧
      (∀ x, x ∈ s2.tsorted → x ∈ s.tsorted ∨
        ∃ c, c ∈ cs ∧ c.dependency_type ≠ deptype.Interface ∧
          Relation.ReflTransGen (NPStep g) c.target_node x) := by
  induction cs with
  | nil =>
    intro s hs
    exact ⟨s, rfl, hs, markLe_refl _, ⟨[], by simp⟩, by simp,
      fun x hx => Or.inl hx⟩
  | cons c cs ih =>
    intro s hs
    by_cases hct : c.dependency_type ≠ deptype.Interface
    · obtain ⟨s1, hv, hs1, hfc⟩ := h c (by simp) hct s hs
      obtain ⟨new1, happ1⟩ := hfc.app
      obtain ⟨s2, hr, hs2, hml2, ⟨new2, happ2⟩, hallpub, hsound2⟩ :=
        ih (fun c2 hc2 => h c2 (by simp [hc2])) s1 hs1
      refine ⟨s2, by simp [runTopPass, hct, hv, hr], hs2,
        markLe_trans hfc.markLe hml2, ⟨new1 ++ new2, by simp [happ2, happ1]⟩, ?_, ?_⟩
      · intro c2 hc2 hct2
        rcases List.mem_cons.mp hc2 with rfl | hc2'
        · exact hml2.public hfc.pub
        · exact hallpub c2 hc2' hct2
      · intro x hx
        rcases hsound2 x hx with hx1 | ⟨c2, hc2, hct2, hreach⟩
        · rcases hfc.sound x hx1 with hx0 | hreach
          · exact Or.inl hx0
          · exact Or.inr ⟨c, by simp, hct, hreach⟩
        · exact Or.inr ⟨c2, by simp [hc2], hct2, hreach⟩
    · obtain ⟨s2, hr, hs2, hml2, happ, hallpub, hsound⟩ :=
        ih (fun c2 hc2 => h c2 (by simp [hc2])) s hs
      refine ⟨s2, by simp [runTopPass, hct, hr], hs2, hml2, happ, ?_, ?_⟩
      · intro c2 hc2 hct2
        rcases List.mem_cons.mp hc2 with rfl | hc2'
        · exact absurd hct2 hct
        · exact hallpub c2 hc2' hct2
      · intro x hx
        rcases hsound x hx with h1 | ⟨c2, hc2, hct2, hreach⟩
        · exact Or.inl h1
        · exact Or.inr ⟨c2, by simp [hc2], hct2, hreach⟩

/-- Master specification of the closure computation on an acyclic graph:
it succeeds, returns a duplicate-free list whose members are exactly
the nodes reachable through a non-Interface first edge followed by
non-Private edges, and lists every node before everything it
non-privately reaches. -/
theorem get_libdeps_uncached_spec (g : Graph) (V : List Nat) (fuel node : Nat)
    (closed : EdgeClosed g V) (acyc : Acyclic g)
    (hfuel : V.length + 1 ≤ fuel) :
    ∃ l, _get_libdeps_uncached g fuel node = Except.ok l ∧ l.Nodup ∧
      (∀ b, b ∈ l ↔ ClosureReach g node b) ∧
      (∀ a b, a ∈ l → Relation.TransGen (NPStep g) a b →
        b ∈ l ∧ ListBefore l a b) := by
  have hs0 : StateInv g ⟨[], fun _ => LibdepsVisitationMark.UNMARKED⟩ :=
    ⟨fun x => by simp, List.nodup_nil,
      fun x hx _ _ => absurd hx (List.not_mem_nil x)⟩
  have hchild : ∀ c ∈ _get_sorted_direct_libdeps g node,
      c.dependency_type ≠ deptype.Interface → ∀ s, StateInv g s →
      ∃ s2, _libdeps_visit g fuel c s [] = Except.ok s2 ∧ StateInv g s2 ∧
        FullConc g c.target_node s s2 := by
    intro c hc _ s hs
    exact visit_full_ok g V closed acyc fuel c [] List.nodup_nil
      (fun w hw => absurd hw (List.not_mem_nil w))
      (fun w hw => absurd hw (List.not_mem_nil w))
      (closed node c (mem_sorted_direct.mp hc))
      (by simpa using hfuel) s hs
  obtain ⟨sf, hloop, hsf, _, _, hallpub, hsound⟩ :=
    runTopPass_spec g (fun c s => _libdeps_visit g fuel c s [])
      (_get_sorted_direct_libdeps g node) hchild
      ⟨[], fun _ => LibdepsVisitationMark.UNMARKED⟩ hs0
  refine ⟨sf.tsorted.reverse, by simp [_get_libdeps_uncached, hloop], ?_, ?_, ?_⟩
  · exact List.nodup_reverse.mpr hsf.nodup
  · intro b
    rw [List.mem_reverse]
    constructor
    · intro hb
      rcases hsound b hb with hb0 | ⟨c, hc, hct, hreach⟩
      · exact absurd hb0 (List.not_mem_nil b)
      · exact ⟨c, mem_sorted_direct.mp hc, hct, hreach⟩
    · rintro ⟨d, hdadj, hdiface, hreach⟩
      have hdpub : sf.marked d.target_node = LibdepsVisitationMark.MARKED_PUBLIC :=
        hallpub d (mem_sorted_direct.mpr hdadj) hdiface
      have hdmem : d.target_node ∈ sf.tsorted := (hsf.mem_iff _).mp hdpub
      rcases Relation.reflTransGen_iff_eq_or_transGen.mp hreach with rfl | htrans
      · exact hdmem
      · exact (hsf.npClosed _ hdmem b htrans).mem_left
  · intro a b ha hab
    rw [List.mem_reverse] at ha
    have hb := hsf.npClosed a ha b hab
    exact ⟨List.mem_reverse.mpr hb.mem_left, hb.reverse⟩

end TopLevelSpec

section LintAndEmitter

/-- `dependency_visibility_ignored`: the static-link (flatten) map. -/
def dependency_visibility_ignored : deptype → deptype
  | deptype.Global => deptype.Public
  | deptype.Interface => deptype.Public
  | deptype.Public => deptype.Public
  | deptype.Private => deptype.Public

/-- `dependency_visibility_honored`: the dynamic-link (preserve) map. -/
def dependency_visibility_honored : deptype → deptype
  | deptype.Global => deptype.Private
  | deptype.Interface => deptype.Interface
  | deptype.Public => deptype.Public
  | deptype.Private => deptype.Private

/-- A LIBDEPS_DEPENDENTS / PROGDEPS_DEPENDENTS entry: either a bare name
or a `(name, visibility)` tuple. -/
inductive depsDependent
  | bare (name : Nat)
  | typed (name : Nat) (visibility : deptype)
deriving DecidableEq

/-- The slice of a target's SCons environment that the libdeps emitter
and linter read.  Library names are modelled as naturals; the guards
for empty or None entries of the Python lists are dropped under this
abstraction (every modelled name denotes a real library). -/
structure LibdepsEnv where
  libdeps_global : List Nat
  libdeps : List Nat
  libdeps_private : List Nat
  libdeps_interface : List Nat
  libdeps_no_inherit : List Nat
  libdeps_tags : List String
  libdeps_dependents : List depsDependent
  progdeps_dependents : List depsDependent
  is_conftest : Bool
deriving DecidableEq

/-- `dep_type_to_env_var`: the declared list of each visibility kind. -/
def envDeps (env : LibdepsEnv) : deptype → List Nat
  | deptype.Global => env.libdeps_global
  | deptype.Public => env.libdeps
  | deptype.Private => env.libdeps_private
  | deptype.Interface => env.libdeps_interface

/-- `_get_node_with_ixes`: prefix/suffix normalisation of a library name
for a builder type; the normalisation is injective on names, so under
the names-as-naturals abstraction it is the identity. -/
def _get_node_with_ixes (node : Nat) : Nat := node

/-- One visibility kind's slice of the `get_libdeps_nodes` loop: keep
each declared library unless it is listed in LIBDEPS_NO_INHERIT, and
record the dependency with its ORIGINAL declared visibility and its
listed name. -/
def depsOfType (env : LibdepsEnv) (dt : deptype) : List dependency :=
  (envDeps env dt).filterMap (fun lib =>
    if lib ∈ env.libdeps_no_inherit then none
    else some ⟨_get_node_with_ixes lib, dt, lib⟩)

/-- `get_libdeps_nodes(env, target, builder, ...)`: gather the declared
dependencies of a target, iterating the visibility kinds in
`sorted(visibility_map.keys())` order (Global, Public, Private,
Interface — both visibility maps have the same four keys, which is all
the function reads of the map), skipping Global dependencies for
conftest targets.  Every dependency carries its originally declared
visibility; the visibility map is NOT applied here. -/
def get_libdeps_nodes (env : LibdepsEnv) : List dependency :=
  (if env.is_conftest then [] else depsOfType env deptype.Global) ++
  depsOfType env deptype.Public ++
  depsOfType env deptype.Private ++
  depsOfType env deptype.Interface

/-- The lint-relevant context of a `LibdepLinter(env, target)`: the
class-wide `print_linter_errors` flag, the target's environment, and
the LIBDEPS_TAGS of each dependency target's own environment
(`libdep.target_node.env`). -/
structure LintContext where
  print_linter_errors : Bool
  env : LibdepsEnv
  node_tags : Nat → List String

/-- `_check_for_lint_tags(lint_tag, env, inclusive_tag)`: membership of
the tag in the given tag list, except that in print mode exclusive
(escape) tags are bypassed — reported as absent — so that the
corresponding violations are still counted and printed, while an
inclusive tag (which opts a node INTO a rule) is always honoured. -/
def _check_for_lint_tags (ctx : LintContext) (lint_tag : String)
    (tags : List String) (inclusive_tag : Bool) : Bool :=
  if ¬ inclusive_tag ∧ ctx.print_linter_errors = true then false
  else decide (lint_tag ∈ tags)

/-- `linter_rule_leaf_node_no_deps`: a node opting in with the inclusive
tag `lint-leaf-node-no-deps` must not have non-Global dependencies,
unless the dependency carries the exclusive escape tag
`lint-leaf-node-allowed-dep` in its own environment.  `some` is a
violation message. -/
def linter_rule_leaf_node_no_deps (ctx : LintContext) (libdep : dependency) :
    Option String :=
  if ¬ _check_for_lint_tags ctx "lint-leaf-node-no-deps"
      ctx.env.libdeps_tags true then none
  else if _check_for_lint_tags ctx "lint-leaf-node-allowed-dep"
      (ctx.node_tags libdep.target_node) false then none
  else if libdep.dependency_type = deptype.Global then none
  else some "marked explicitly as a leaf node and has a dependency"

/-- `linter_rule_no_dups`, threading the `unique_libs` set: a node must
not link the same libdep twice; the exclusive escape tag
`lint-allow-dup-libdeps` skips the rule (and the recording). -/
def linter_rule_no_dups (ctx : LintContext) (unique_libs : List Nat)
    (libdep : dependency) : Option String × List Nat :=
  if _check_for_lint_tags ctx "lint-allow-dup-libdeps"
      ctx.env.libdeps_tags false then (none, unique_libs)
  else if libdep.target_node ∈ unique_libs then
    (some "links the same library multiple times", unique_libs)
  else (none, libdep.target_node :: unique_libs)

/-- `_raise_libdep_lint_exception`: raise a `LibdepLinterError` in strict
mode; in print mode count the infraction and continue. -/
def applyRuleResult (ctx : LintContext) (count : Nat) :
    Option String → Except String Nat
  | some msg =>
    if ctx.print_linter_errors then Except.ok (count + 1)
    else Except.error msg
  | none => Except.ok count

/-- Run the embedded per-edge rules on one libdep, in registration order
(`linter_rule_leaf_node_no_deps` before `linter_rule_no_dups`; these
are the two rules this development reasons about). -/
def lint_one (ctx : LintContext) (count : Nat) (uniq : List Nat)
    (libdep : dependency) : Except String (Nat × List Nat) :=
  match applyRuleResult ctx count (linter_rule_leaf_node_no_deps ctx libdep) with
  | Except.error msg => Except.error msg
  | Except.ok count1 =>
    match linter_rule_no_dups ctx uniq libdep with
    | (r, uniq2) =>
      match applyRuleResult ctx count1 r with
      | Except.error msg => Except.error msg
      | Except.ok count2 => Except.ok (count2, uniq2)

/-- The `for libdep in libdeps` loop of `lint_libdeps`. -/
def lint_libdeps_go (ctx : LintContext) :
    List dependency → Nat → List Nat → Except String Nat
  | [], count, _ => Except.ok count
  | d :: ds, count, uniq =>
    match lint_one ctx count uniq d with
    | Except.error msg => Except.error msg
    | Except.ok (c2, u2) => lint_libdeps_go ctx ds c2 u2

/-- `LibdepLinter(env, target).lint_libdeps(libdeps)`: run every per-edge
rule on every libdep.  Strict mode raises the first violation
(`Except.error`); print mode returns the number of violations counted
(`linting_infractions`). -/
def lint_libdeps (ctx : LintContext) (libdeps : List dependency) :
    Except String Nat :=
  lint_libdeps_go ctx libdeps 0 []

/-- Result of `libdeps_emitter` on one target: the lint outcome (absent
for conftests, which skip linting), the dependency list appended to
the target itself, and the reverse edges appended to dependent
nodes. -/
structure EmitterResult where
  lint_outcome : Option (Except String Nat)
  direct : List dependency
  reverse_edges : List (Nat × dependency)

/-- Process one LIBDEPS_DEPENDENTS / PROGDEPS_DEPENDENTS entry of
`libdeps_emitter`: a bare name gets the given default visibility, a
tuple carries its own; the visibility map is applied to the result
before the edge is recorded on the dependent node. -/
def reverse_edge_of (target0 : Nat) (visibility_map : deptype → deptype)
    (default_visibility : deptype) (dep : depsDependent) : Nat × dependency :=
  match dep with
  | depsDependent.bare name =>
    (_get_node_with_ixes name, ⟨target0, visibility_map default_visibility, name⟩)
  | depsDependent.typed name v =>
    (_get_node_with_ixes name, ⟨target0, visibility_map v, name⟩)

/-- `libdeps_emitter(target, source, env, ..., visibility_map, ...)`:
gather the declared dependencies with their original visibility, lint
them (skipped for conftests), only AFTER linting apply the visibility
map to the dependency list, append it to the target, and finally
record the reverse edges of LIBDEPS_DEPENDENTS (bare entries default
to Private) and of PROGDEPS_DEPENDENTS (bare entries default to
Public) unless `ignore_progdeps` is set. -/
def libdeps_emitter (target0 : Nat) (env : LibdepsEnv)
    (print_linter_errors : Bool) (node_tags : Nat → List String)
    (visibility_map : deptype → deptype) (ignore_progdeps : Bool) :
    EmitterResult :=
  let libdeps := get_libdeps_nodes env
  let lint_outcome :=
    if env.is_conftest then none
    else some (lint_libdeps ⟨print_linter_errors, env, node_tags⟩ libdeps)
  let mapped := libdeps.map (fun d =>
    dependency.mk d.target_node (visibility_map d.dependency_type) d.listed_name)
  let rev1 := env.libdeps_dependents.map
    (reverse_edge_of target0 visibility_map deptype.Private)
  let rev2 :=
    if ignore_progdeps then []
    else env.progdeps_dependents.map
      (reverse_edge_of target0 visibility_map deptype.Public)
  ⟨lint_outcome, mapped, rev1 ++ rev2⟩

end LintAndEmitter

section GraphModelSpec

/-- Target kinds of the GraphModel (spec §3). -/
inductive TargetKind
  | StaticLibrary
  | SharedLibrary
  | SharedArchive
  | Program
  | Other
deriving DecidableEq

/-- `ConflictingKindError`: the same node declared with two different
target kinds. -/
structure ConflictingKindError where
  node : Nat
deriving DecidableEq

/-- Modelled from the spec: `add_node(id, kind)` of the GraphModel (spec
§4.1) has no counterpart under src/ — in the SCons integration, nodes
are created implicitly by builders — so it is modelled from the spec
contract: create the node if absent, idempotent on repeated calls with
identical kind, fail with `ConflictingKindError` when called again
with a different kind. -/
def add_node (store : List (Nat × TargetKind)) (nid : Nat) (kind : TargetKind) :
    Except ConflictingKindError (List (Nat × TargetKind)) :=
  match store.find? (fun p => p.1 == nid) with
  | none => Except.ok ((nid, kind) :: store)
  | some p => if p.2 = kind then Except.ok store else Except.error ⟨nid⟩

end GraphModelSpec

section Claims

/-- C1 counterexample: the claim as stated fails on the graph
`0 −Interface→ 1`.  Node 1 is reachable from node 0 by a path whose
edges other than the very first are (vacuously) non-Private
(`SpecReach`), yet the computed closure of node 0 is empty, because
`_get_libdeps` skips direct Interface edges. -/
theorem C1_counterexample :
    _get_libdeps_uncached gIfaceDirect 2 0 = Except.ok [] ∧
    SpecReach gIfaceDirect 0 1 ∧ (1 : Nat) ∉ ([] : List Nat) := by
  refine ⟨rfl, ⟨⟨1, deptype.Interface, 1⟩, by decide, Relation.ReflTransGen.refl⟩,
    by decide⟩

/-- C1 (amended): for every acyclic dependency graph (edge targets within
the vertex list `V`) and every node `N`, the computed closure of `N`
contains each node reachable from `N` via a path whose FIRST edge is
non-Interface and whose remaining edges are non-Private, contains each
such node exactly once, and never contains `N` itself. -/
theorem C1_closure_complete (g : Graph) (V : List Nat) (fuel node : Nat)
    (closed : EdgeClosed g V) (acyc : Acyclic g)
    (hfuel : V.length + 1 ≤ fuel) :
    ∃ l, _get_libdeps_uncached g fuel node = Except.ok l ∧
      (∀ b, ClosureReach g node b → l.count b = 1) ∧ node ∉ l := by
  obtain ⟨l, hok, hnd, hmem, _⟩ :=
    get_libdeps_uncached_spec g V fuel node closed acyc hfuel
  refine ⟨l, hok, ?_, ?_⟩
  · intro b hb
    exact List.count_eq_one_of_mem hnd ((hmem b).mpr hb)
  · intro hself
    obtain ⟨d, hd, _, hreach⟩ := (hmem node).mp hself
    exact acyc node
      (Relation.TransGen.head' ⟨d, hd, rfl⟩
        (hreach.mono (fun a b hab => hab.toAnyStep)))

/-- Witness for C1: the amended theorem applied to the concrete acyclic
graph `gPriv` with vertex list [1, 2, 3] and fuel 4 at node 0. -/
theorem C1_closure_complete_witness :
    ∃ l, _get_libdeps_uncached gPriv 4 0 = Except.ok l ∧
      (∀ b, ClosureReach gPriv 0 b → l.count b = 1) ∧ 0 ∉ l :=
  C1_closure_complete gPriv [1, 2, 3] 4 0
    (edgeClosed_of_entries (by decide))
    (acyclic_of_rank gPriv (fun n => 10 - n) (by decide))
    (by decide)

/-- C2: in the graph X=0 −Public→ A=1, A −Private→ B=2, B −Public→ C=3,
the closure of X is exactly [A] (B and C lie beyond a private edge
relative to X), while the closure of A is exactly [B, C] (A's own
direct private edge is walked fully in A's own closure, including B's
Public child C). -/
theorem C2_private_truncation :
    _get_libdeps_uncached gPriv 9 0 = Except.ok [1] ∧
    _get_libdeps_uncached gPriv 9 1 = Except.ok [2, 3] :=
  ⟨rfl, rfl⟩

/-- C4: declaring the cycle A=0 −Public→ B=1 −Public→ C=2 −Public→ A and
computing the closure of A yields a `DependencyCycleError` (not a
result); its cycle path [1, 2, 0, 1] = [B, C, A, B] begins and ends
with the same node and equals [A, B, C, A] = [0, 1, 2, 0] up to
rotation. -/
theorem C4_cycle_error :
    _get_libdeps_uncached gCycle 9 0 =
      Except.error (VisitError.cycleErr ⟨[1, 2, 0, 1]⟩) ∧
    [1, 2, 0, 1].head? = [1, 2, 0, 1].getLast? ∧
    [0, 1, 2, 0].dropLast.IsRotated [1, 2, 0, 1].dropLast :=
  ⟨rfl, rfl, ⟨1, rfl⟩⟩

end Claims

section ClaimsOrderingMemo

/-- C3 counterexample: in the graph N=0 −Public→ A=1, N −Public→ B=2,
A −Private→ B, the closure of N is [B, A] = [2, 1] and the closure of
A is [B] = [2], so B is in A's closure but is positioned BEFORE A (not
after) in the closure of N: A's direct private dependency is only
cycle-walked inside N's traversal and B gets appended first by N's
other edge. -/
theorem C3_counterexample :
    _get_libdeps_uncached gOrder 9 0 = Except.ok [2, 1] ∧
    _get_libdeps_uncached gOrder 9 1 = Except.ok [2] ∧
    (2 : Nat) ∈ [2] ∧
    ¬ ListBefore [2, 1] 1 2 := by
  refine ⟨rfl, rfl, by decide, ?_⟩
  rintro ⟨l1, l2, heq, hmem⟩
  rcases l2 with _ | ⟨c, l2⟩
  · simp at hmem
  · rcases l1 with _ | ⟨a, l1⟩
    · simp at heq
    · have hlen := congrArg List.length heq
      simp [List.length_append] at hlen
      omega

/-- C3 (amended): the accumulated postorder output is reversed before
being returned, so in any computed closure a node precedes everything
it transitively reaches through non-Private edges: whenever A is in
the returned closure and B is reachable from A by a nonempty path of
non-Private edges, B is also in the closure and is positioned after
A.  (The original claim's condition "B is in A's closure" also admits
A's direct Private edges, for which the ordering fails, as
`C3_counterexample` shows.) -/
theorem C3_ordering (g : Graph) (V : List Nat) (fuel node A B : Nat)
    (l : List Nat)
    (closed : EdgeClosed g V) (acyc : Acyclic g)
    (hfuel : V.length + 1 ≤ fuel)
    (hres : _get_libdeps_uncached g fuel node = Except.ok l)
    (hA : A ∈ l) (hAB : Relation.TransGen (NPStep g) A B) :
    B ∈ l ∧ ListBefore l A B := by
  obtain ⟨l2, hok, _, _, hord⟩ :=
    get_libdeps_uncached_spec g V fuel node closed acyc hfuel
  rw [hres] at hok
  have hl : l = l2 := by injection hok
  subst hl
  exact hord A B hA hAB

/-- Witness for C3 (amended): in the closure [2, 3] of node 1 of `gPriv`,
node 2 non-privately reaches node 3 and is listed before it. -/
theorem C3_ordering_witness : (3 : Nat) ∈ [2, 3] ∧ ListBefore [2, 3] 2 3 :=
  C3_ordering gPriv [1, 2, 3] 4 1 2 3 [2, 3]
    (edgeClosed_of_entries (by decide))
    (acyclic_of_rank gPriv (fun n => 10 - n) (by decide))
    (by decide) rfl (by decide)
    (Relation.TransGen.single ⟨⟨3, deptype.Public, 3⟩, by decide, rfl, by decide⟩)

/-- C5 counterexample: in the graph X=0 −Public→ A=1 −Interface→ B=2,
node B appears in the computed closure of X even though every edge
reaching B is Interface-typed: only the queried node's own direct
Interface edges are excluded; an Interface edge of an intermediate
dependency is walked like a Public one (`_libdeps_visit` skips only
Private children). -/
theorem C5_counterexample :
    _get_libdeps_uncached gIfaceTrans 9 0 = Except.ok [1, 2] ∧
    (2 : Nat) ∈ [1, 2] ∧
    (∀ p ∈ gIfaceTrans.entries, ∀ d ∈ p.2, d.target_node = 2 →
      d.dependency_type = deptype.Interface) :=
  ⟨rfl, by decide, by decide⟩

/-- C5 (amended): the closure computation excludes only the queried
node's DIRECT Interface edges: every member of a returned closure is
reached through a first edge that is not Interface (followed by
non-Private edges).  Interface edges of intermediate dependencies are
traversed (see `C5_counterexample`). -/
theorem C5_soundness (g : Graph) (V : List Nat) (fuel node : Nat)
    (l : List Nat) (b : Nat)
    (closed : EdgeClosed g V) (acyc : Acyclic g)
    (hfuel : V.length + 1 ≤ fuel)
    (hres : _get_libdeps_uncached g fuel node = Except.ok l)
    (hb : b ∈ l) : ClosureReach g node b := by
  obtain ⟨l2, hok, _, hmem, _⟩ :=
    get_libdeps_uncached_spec g V fuel node closed acyc hfuel
  rw [hres] at hok
  have hl : l = l2 := by injection hok
  subst hl
  exact (hmem b).mp hb

/-- Witness for C5 (amended): node 3 of the closure [2, 3] of node 1 of
`gPriv` is reached through the non-Interface first edge 1 −Private→ 2. -/
theorem C5_soundness_witness : ClosureReach gPriv 1 3 :=
  C5_soundness gPriv [1, 2, 3] 4 1 [2, 3] 3
    (edgeClosed_of_entries (by decide))
    (acyclic_of_rank gPriv (fun n => 10 - n) (by decide))
    (by decide) rfl (by decide)

/-- C6: a first `_get_libdeps` call on an empty cache stores its result
in the per-node memo; any later call on that cache returns the very
same cached list and cache, without re-traversal — the result does not
even depend on the graph or the fuel any more. -/
theorem C6_memoized (g : Graph) (fuel node : Nat) (l : List Nat)
    (c1 : LibdepsCache)
    (h : _get_libdeps g fuel (fun _ => none) node = Except.ok (l, c1)) :
    c1 node = some l ∧
    _get_libdeps g fuel c1 node = Except.ok (l, c1) ∧
    (∀ g2 fuel2, _get_libdeps g2 fuel2 c1 node = Except.ok (l, c1)) := by
  simp only [_get_libdeps] at h
  cases huc : _get_libdeps_uncached g fuel node with
  | error e =>
    rw [huc] at h
    exact absurd h (by simp)
  | ok t =>
    rw [huc] at h
    simp only [Except.ok.injEq, Prod.mk.injEq] at h
    obtain ⟨ht, hc⟩ := h
    subst ht
    subst hc
    refine ⟨by simp, ?_, ?_⟩
    · simp [_get_libdeps]
    · intro g2 fuel2
      simp [_get_libdeps]

/-- Witness for C6: the concrete first call on `gPriv` at node 0. -/
theorem C6_memoized_witness :
    (fun x => if x = 0 then some ([1] : List Nat) else none) 0 = some [1] ∧
    _get_libdeps gPriv 9 (fun x => if x = 0 then some [1] else none) 0 =
      Except.ok ([1], fun x => if x = 0 then some [1] else none) ∧
    (∀ g2 fuel2,
      _get_libdeps g2 fuel2 (fun x => if x = 0 then some [1] else none) 0 =
        Except.ok ([1], fun x => if x = 0 then some [1] else none)) :=
  C6_memoized gPriv 9 0 [1] _ rfl

end ClaimsOrderingMemo

section ClaimsLintEmitter

/-- C7: per-edge lint rules always observe the originally-declared
visibility, never the mapped one: the emitter's lint outcome is
independent of the selected visibility map and equals linting the
dependency list built with the original visibilities; the map is
applied to that same list only afterwards, when the target's
dependency edges are recorded. -/
theorem C7_lint_before_visibility_map (target0 : Nat) (env : LibdepsEnv)
    (ple : Bool) (ntags : Nat → List String)
    (vm vm2 : deptype → deptype) (ip : Bool)
    (hc : env.is_conftest = false) :
    (libdeps_emitter target0 env ple ntags vm ip).lint_outcome =
      (libdeps_emitter target0 env ple ntags vm2 ip).lint_outcome ∧
    (libdeps_emitter target0 env ple ntags vm ip).lint_outcome =
      some (lint_libdeps ⟨ple, env, ntags⟩ (get_libdeps_nodes env)) ∧
    (libdeps_emitter target0 env ple ntags vm ip).direct =
      (get_libdeps_nodes env).map (fun d =>
        dependency.mk d.target_node (vm d.dependency_type) d.listed_name) := by
  refine ⟨?_, ?_, rfl⟩ <;> simp [libdeps_emitter, hc]

/-- A one-Public-dependency non-conftest environment used as the C7
witness input. -/
def envC7 : LibdepsEnv := ⟨[], [5], [], [], [], [], [], [], false⟩

/-- Witness for C7: the flatten and preserve maps lint identically on
`envC7`, and the recorded edges carry the mapped visibilities. -/
theorem C7_witness :
    (libdeps_emitter 9 envC7 false (fun _ => [])
        dependency_visibility_ignored false).lint_outcome =
      (libdeps_emitter 9 envC7 false (fun _ => [])
        dependency_visibility_honored false).lint_outcome ∧
    (libdeps_emitter 9 envC7 false (fun _ => [])
        dependency_visibility_ignored false).lint_outcome =
      some (lint_libdeps ⟨false, envC7, fun _ => []⟩ (get_libdeps_nodes envC7)) ∧
    (libdeps_emitter 9 envC7 false (fun _ => [])
        dependency_visibility_ignored false).direct =
      (get_libdeps_nodes envC7).map (fun d =>
        dependency.mk d.target_node
          (dependency_visibility_ignored d.dependency_type) d.listed_name) :=
  C7_lint_before_visibility_map 9 envC7 false (fun _ => [])
    dependency_visibility_ignored dependency_visibility_honored false rfl

/-- C8: declaring the same node twice with an identical target kind is
idempotent, and declaring it again with a different kind fails
immediately with a `ConflictingKindError`. -/
theorem C8_add_node (store : List (Nat × TargetKind)) (nid : Nat)
    (k k2 : TargetKind) (store2 : List (Nat × TargetKind))
    (hok : add_node store nid k = Except.ok store2) (hne : k2 ≠ k) :
    add_node store2 nid k = Except.ok store2 ∧
    add_node store2 nid k2 = Except.error ⟨nid⟩ := by
  unfold add_node at hok
  cases hf : store.find? (fun p => p.1 == nid) with
  | none =>
    rw [hf] at hok
    have h2 : store2 = (nid, k) :: store := by
      injection hok with h
      exact h.symm
    subst h2
    have hfind : ((nid, k) :: store).find? (fun p => p.1 == nid) =
        some (nid, k) := by simp [List.find?]
    constructor <;> simp [add_node, hfind, Ne.symm hne]
  | some p =>
    rw [hf] at hok
    dsimp only at hok
    by_cases hpk : p.2 = k
    · rw [if_pos hpk] at hok
      have h2 : store2 = store := by
        injection hok with h
        exact h.symm
      subst h2
      constructor <;> simp [add_node, hf, hpk, Ne.symm hne]
    · rw [if_neg hpk] at hok
      exact absurd hok (by simp)

/-- Witness for C8: node 5 first declared as a Program, redeclared as a
Program (idempotent), then as a StaticLibrary (conflict). -/
theorem C8_add_node_witness :
    add_node [(5, TargetKind.Program)] 5 TargetKind.Program =
      Except.ok [(5, TargetKind.Program)] ∧
    add_node [(5, TargetKind.Program)] 5 TargetKind.StaticLibrary =
      Except.error ⟨5⟩ :=
  C8_add_node [] 5 TargetKind.Program TargetKind.StaticLibrary
    [(5, TargetKind.Program)] rfl (by decide)

/-- C9: in permissive (print) lint mode, exclusive escape tags are
ignored while inclusive tags are still honoured.  With the escape tag
`lint-allow-dup-libdeps` set on the environment, linting a duplicated
dependency passes in strict mode (the tag suppresses the rule) but is
still counted once in print mode; `_check_for_lint_tags` consults
inclusive tags in print mode and exclusive tags in strict mode
normally. -/
theorem C9_print_mode_counts_exclusive_tagged (env : LibdepsEnv)
    (ntags : Nat → List String) (d : dependency)
    (hdup : "lint-allow-dup-libdeps" ∈ env.libdeps_tags)
    (hleaf : "lint-leaf-node-no-deps" ∉ env.libdeps_tags) :
    lint_libdeps ⟨false, env, ntags⟩ [d, d] = Except.ok 0 ∧
    lint_libdeps ⟨true, env, ntags⟩ [d, d] = Except.ok 1 ∧
    (∀ tag tags2, _check_for_lint_tags ⟨true, env, ntags⟩ tag tags2 true =
      decide (tag ∈ tags2)) ∧
    (∀ tag tags2, _check_for_lint_tags ⟨false, env, ntags⟩ tag tags2 false =
      decide (tag ∈ tags2)) := by
  refine ⟨?_, ?_, ?_, ?_⟩
  · simp [lint_libdeps, lint_libdeps_go, lint_one, applyRuleResult,
      linter_rule_leaf_node_no_deps, linter_rule_no_dups,
      _check_for_lint_tags, hdup, hleaf]
  · simp [lint_libdeps, lint_libdeps_go, lint_one, applyRuleResult,
      linter_rule_leaf_node_no_deps, linter_rule_no_dups,
      _check_for_lint_tags, hdup, hleaf]
  · intro tag tags2
    simp [_check_for_lint_tags]
  · intro tag tags2
    simp [_check_for_lint_tags]

/-- The C9 witness environment: only the duplicate-escape tag is set. -/
def envC9 : LibdepsEnv :=
  ⟨[], [], [], [], [], ["lint-allow-dup-libdeps"], [], [], false⟩

/-- Witness for C9: the duplicated dependency 7 under `envC9`. -/
theorem C9_witness :
    lint_libdeps ⟨false, envC9, fun _ => []⟩
      [⟨7, deptype.Public, 7⟩, ⟨7, deptype.Public, 7⟩] = Except.ok 0 ∧
    lint_libdeps ⟨true, envC9, fun _ => []⟩
      [⟨7, deptype.Public, 7⟩, ⟨7, deptype.Public, 7⟩] = Except.ok 1 ∧
    (∀ tag tags2,
      _check_for_lint_tags ⟨true, envC9, fun _ => []⟩ tag tags2 true =
        decide (tag ∈ tags2)) ∧
    (∀ tag tags2,
      _check_for_lint_tags ⟨false, envC9, fun _ => []⟩ tag tags2 false =
        decide (tag ∈ tags2)) :=
  C9_print_mode_counts_exclusive_tagged envC9 (fun _ => [])
    ⟨7, deptype.Public, 7⟩ (by decide) (by decide)

/-- C10: a reverse dependency declared as a bare name defaults its
visibility by dependent kind — LIBDEPS_DEPENDENTS entries default to
Private, PROGDEPS_DEPENDENTS entries default to Public — and the
selected visibility map is applied to that default before the edge is
recorded on the dependent node. -/
theorem C10_reverse_dependency_defaults (target0 : Nat) (env : LibdepsEnv)
    (ple : Bool) (ntags : Nat → List String) (vm : deptype → deptype)
    (dlib dprog : Nat)
    (hdeps : env.libdeps_dependents = [depsDependent.bare dlib])
    (hprog : env.progdeps_dependents = [depsDependent.bare dprog]) :
    (libdeps_emitter target0 env ple ntags vm false).reverse_edges =
      [(dlib, ⟨target0, vm deptype.Private, dlib⟩),
       (dprog, ⟨target0, vm deptype.Public, dprog⟩)] := by
  simp [libdeps_emitter, reverse_edge_of, hdeps, hprog, _get_node_with_ixes]

/-- The C10 witness environment: one bare library dependent (3) and one
bare program dependent (4). -/
def envC10 : LibdepsEnv :=
  ⟨[], [], [], [], [], [], [depsDependent.bare 3], [depsDependent.bare 4], false⟩

/-- Witness for C10: under the preserve (honored) map the library
dependent edge is recorded Private and the program dependent edge
Public. -/
theorem C10_witness :
    (libdeps_emitter 9 envC10 false (fun _ => [])
        dependency_visibility_honored false).reverse_edges =
      [(3, ⟨9, deptype.Private, 3⟩), (4, ⟨9, deptype.Public, 4⟩)] :=
  C10_reverse_dependency_defaults 9 envC10 false (fun _ => [])
    dependency_visibility_honored 3 4 rfl rfl

end ClaimsLintEmitter
